import Mathlib

/-!
# Covariate export/merge lifecycle manager: verification

A shallow embedding of the covariate export/merge lifecycle manager of
`avoided-emissions-web` (files `src/webapp/cog_merge.py`, `src/webapp/tasks.py`,
`src/webapp/services.py`), together with proofs and refutations of the frozen
claims C1-C10 about its specification.

Python strings are modelled as `List Char`; object stores as lists of object
names (the pagination loops of the listing helpers are modelled as returning
the full listing).  The database table of `Covariate` rows is a `List Record`;
timestamps are abstract `Nat` values passed in as "now".  Python's stable
`sorted` is modelled by a stable insertion sort (`sortB`); two stable sorts of
the same list under the same total preorder are equal, so this is faithful to
CPython's timsort.  `str.isdigit` agrees with `Char.isDigit` on the ASCII
filenames at play.

Definitions come first, then the supporting lemmas and the claim theorems.
-/

/-- Convert a string literal to the `List Char` model of Python strings. -/
def chars (s : String) : List Char := s.data

/-- The `.tif` extension, checked with `str.endswith(".tif")` throughout
`cog_merge.py`. -/
def tif : List Char := chars ".tif"

/-- Python's `s.strip("/")`: remove leading and trailing slashes. -/
def stripSlash (l : List Char) : List Char :=
  ((l.dropWhile (fun c => c == '/')).reverse.dropWhile (fun c => c == '/')).reverse

/-- Python `prefix.strip("/") + "/"`, the normalised object-name stem used by
`list_all_gcs_tiles` and `list_s3_cog_objects` in `cog_merge.py`. -/
def normPfx (p : List Char) : List Char := stripSlash p ++ ['/']

/-- Insert `x` in front of the first element `y` with `le x y`. -/
def insB {α : Type} (le : α → α → Bool) (x : α) : List α → List α
  | [] => [x]
  | y :: ys => if le x y then x :: y :: ys else y :: insB le x ys

/-- Stable insertion sort for the boolean relation `le`. -/
def sortB {α : Type} (le : α → α → Bool) : List α → List α
  | [] => []
  | x :: xs => insB le x (sortB le xs)

/-- One candidate test of the attribution loop, `cog_merge.py` lines 125–128:
the filename starts with the candidate and either equals `candidate + ".tif"`
exactly or the character right after the candidate is a decimal digit. -/
def covMatches (fname cov : List Char) : Bool :=
  cov.isPrefixOf fname &&
    (fname == cov ++ tif ||
      match fname.drop cov.length with
      | c :: _ => c.isDigit
      | [] => false)

/-- Python `sorted(known_covariates, key=len, reverse=True)` (`cog_merge.py` line 120):
longest name first, ties in input order (Python's sort is stable). -/
def lenDescLe (a b : List Char) : Bool := decide (b.length ≤ a.length)

/-- Candidate names sorted longest-first. -/
def sortNames (names : List (List Char)) : List (List Char) := sortB lenDescLe names

/-- The candidate a filename is attributed to: the first match in
longest-first order (`for cov_name in sorted_names: ... break`), `none` when no
candidate matches (the file is ignored). -/
def attributeTile (known : List (List Char)) (fname : List Char) : Option (List Char) :=
  (sortNames known).find? (fun cov => covMatches fname cov)

/-- From `cog_merge.py` lines 110–114: keep the `.tif` objects under the normalised
stem and strip that stem from their names. -/
def extractFilenames (pfxN : List Char) (objs : List (List Char)) : List (List Char) :=
  ((objs.filter (fun n => (normPfx pfxN).isPrefixOf n)).filter
      (fun n => tif.isSuffixOf n)).map
    (fun n => n.drop (normPfx pfxN).length)

/-- Python `counts[cov_name] = counts.get(cov_name, 0) + 1`, with the dict modelled
as a total function that is 0 outside its keys. -/
def bumpCount (counts : List Char → Nat) (cov : List Char) : List Char → Nat :=
  fun c => if c == cov then counts cov + 1 else counts c

/-- The counting loop of `cog_merge.py` lines 122–130: each filename goes to
the first matching candidate in longest-first order; a filename matching no
candidate is skipped. -/
def countsLoop (sorted : List (List Char)) :
    List (List Char) → (List Char → Nat) → (List Char → Nat)
  | [], counts => counts
  | f :: fs, counts =>
    match sorted.find? (fun cov => covMatches f cov) with
    | some cov => countsLoop sorted fs (bumpCount counts cov)
    | none => countsLoop sorted fs counts

/-- Function `cog_merge.list_all_gcs_tiles`: tile counts per covariate over all `.tif`
objects under the stem, as a total function (0 = absent from the dict). -/
def list_all_gcs_tiles (known : List (List Char)) (objs : List (List Char))
    (pfxN : List Char) : List Char → Nat :=
  countsLoop (sortNames known) (extractFilenames pfxN objs) (fun _ => 0)

/-- The `covariate_status` enum of `models.Covariate`. -/
inductive Status
  | pending_export
  | exporting
  | exported
  | pending_merge
  | merging
  | merged
  | failed
  | cancelled
deriving DecidableEq

/-- Position of a status along the forward transition chain of the spec
(`Failed` and `Cancelled` are the terminal error states). -/
def statusIdx : Status → Nat
  | .pending_export => 0
  | .exporting => 1
  | .exported => 2
  | .pending_merge => 3
  | .merging => 4
  | .merged => 5
  | .failed => 6
  | .cancelled => 7

/-- A status mutation is forward when it does not go back along the chain,
or lands in `failed`/`cancelled` (reachable from any in-flight state). -/
def forwardMove (s t : Status) : Prop :=
  statusIdx s ≤ statusIdx t ∨ t = .failed ∨ t = .cancelled

instance (s t : Status) : Decidable (forwardMove s t) :=
  inferInstanceAs (Decidable (statusIdx s ≤ statusIdx t ∨ t = .failed ∨ t = .cancelled))

/-- One `models.Covariate` row, with the fields the claims are about.
Timestamps are abstract `Nat`s; `tile_urls` is the `metadata["tile_urls"]`
cache; `output_set` records that `output_bucket`/stem were filled in. -/
structure Record where
  id : Nat
  covariate_name : List Char
  status : Status
  gee_task_id : Option (List Char) := none
  started_at : Nat := 0
  completed_at : Option Nat := none
  error_message : Option (List Char) := none
  merged_url : Option (List Char) := none
  size_bytes : Option Nat := none
  n_tiles : Option Nat := none
  tile_urls : Option (List (List Char)) := none
  output_set : Bool := false
deriving DecidableEq

/-- The external GEE phase vocabulary (`op["metadata"]["state"]`);
`UNKNOWN` stands for any value outside the fixed table. -/
inductive GeeState
  | PENDING
  | RUNNING
  | SUCCEEDED
  | FAILED
  | CANCELLED
  | CANCELLING
  | UNKNOWN
deriving DecidableEq

/-- The `state_map` lookup of `tasks.poll_gee_exports` (lines 139–146), with
`state_map.get(gee_state, export.status)` falling back to the current status
for an unrecognised phase. -/
def stateMap (s : GeeState) (cur : Status) : Status :=
  match s with
  | .PENDING => .pending_export
  | .RUNNING => .exporting
  | .SUCCEEDED => .exported
  | .FAILED => .failed
  | .CANCELLED => .cancelled
  | .CANCELLING => .exporting
  | .UNKNOWN => cur

/-- The per-record body of `tasks.poll_gee_exports` (lines 149–198).  Inputs:
the record, the observed GEE phase, the optional error payload message, the
tile URLs `services.list_export_tiles` would return, and the current time.
Returns the updated record and whether a merge dispatch was queued for it
(`_auto_merge_ids.append` followed by `run_cog_merge.delay`). -/
def pollStep (r : Record) (gee : GeeState) (err : Option (List Char))
    (tiles : List (List Char)) (now : Nat) : Record × Bool :=
  match r.gee_task_id with
  | none => (r, false)
  | some _ =>
    let new := stateMap gee r.status
    let step :=
      if new = r.status then (r, false)
      else
        let a := { r with status := new }
        let b := if new = .exported ∨ new = .failed ∨ new = .cancelled then
            { a with completed_at := some now }
          else a
        if new = .exported then
          ({ b with tile_urls := some tiles, status := .pending_merge,
                    output_set := true }, true)
        else (b, false)
    match err with
    | none => step
    | some e =>
      let c := { step.1 with error_message := some e }
      if c.status = .exporting then
        ({ c with status := .failed, completed_at := some now }, step.2)
      else (c, step.2)

/-- The successful result of `cog_merge.merge_covariate_tiles`. -/
structure MergeOk where
  url : List Char
  size_bytes : Nat
  n_tiles : Nat
deriving DecidableEq

/-- How one merge attempt ends: a result, or an exception carrying a message
(`RuntimeError` from `_run_cmd` or no-tiles, any I/O failure, …). -/
inductive MergeOutcome
  | ok (m : MergeOk)
  | exc (msg : List Char)
deriving DecidableEq

/-- The dict `tasks.run_cog_merge` returns. -/
inductive TaskOutcome
  | merged (url : List Char) (size : Nat)
  | failedR (err : List Char)
deriving DecidableEq

/-- Query `db.query(Covariate).filter(Covariate.id == layer_id).first()`. -/
def findRec (db : List Record) (i : Nat) : Option Record :=
  db.find? (fun q => q.id == i)

/-- Update every row whose `id` is `i` (a primary-key update). -/
def updateRec (db : List Record) (i : Nat) (f : Record → Record) : List Record :=
  db.map (fun q => if q.id == i then f q else q)

/-- Assignment `layer.status = "merging"` — the claim step of `tasks.run_cog_merge`. -/
def setMerging (q : Record) : Record := { q with status := .merging }

/-- The success fields of `tasks.run_cog_merge` lines 57–62. -/
def setMergeOk (m : MergeOk) (now : Nat) (q : Record) : Record :=
  { q with status := .merged, merged_url := some m.url,
           size_bytes := some m.size_bytes, n_tiles := some m.n_tiles,
           completed_at := some now }

/-- The exception handler of `tasks.run_cog_merge` lines 74–79: status
`failed`, `error_message = str(exc)[:2000]`, `completed_at` set. -/
def setMergeFailed (msg : List Char) (now : Nat) (q : Record) : Record :=
  { q with status := .failed, error_message := some (msg.take 2000),
           completed_at := some now }

/-- From `tasks.run_cog_merge` lines 39–46: check only that the row exists, then
set status `merging` and commit.  No status precondition is checked. -/
def claimRecord (db : List Record) (i : Nat) : Option (List Record) :=
  match findRec db i with
  | none => none
  | some _ => some (updateRec db i setMerging)

/-- Task `tasks.run_cog_merge`: claim the row, run the merge, and record the
outcome.  On an exception the handler re-queries the row, sets `failed`,
stores `str(exc)[:2000]` and `completed_at`, and returns a failure dict
(`str(exc)[:500]`) instead of raising. -/
def run_cog_merge (db : List Record) (i : Nat) (outcome : MergeOutcome)
    (now : Nat) : List Record × TaskOutcome :=
  match claimRecord db i with
  | none => (db, .failedR (chars "record not found"))
  | some db₁ =>
    match outcome with
    | .ok m => (updateRec db₁ i (setMergeOk m now), .merged m.url m.size_bytes)
    | .exc msg => (updateRec db₁ i (setMergeFailed msg now), .failedR (msg.take 500))

/-- Concrete run of C4: an `exporting` record whose GEE job succeeded, with
three tile URLs found on GCS. -/
def c4Rec : Record :=
  { id := 2, covariate_name := chars "elev", status := .exporting,
    gee_task_id := some (chars "task-a") }

/-- Concrete record for the C5 witness. -/
def c5Rec : Record := { id := 1, covariate_name := chars "elev", status := .pending_merge }

/-- Concrete record for the C10 witness: already `merged`. -/
def c10Rec : Record :=
  { id := 9, covariate_name := chars "pop_2015", status := .merged,
    merged_url := some (chars "old-url") }

/-- A record the C3 counterexample polls: `exporting`, with the external job
reporting phase `PENDING`. -/
def c3Rec : Record :=
  { id := 1, covariate_name := chars "elev", status := .exporting,
    gee_task_id := some (chars "t1") }

/-- One raw S3 object: key and size. -/
structure S3Obj where
  key : List Char
  size : Nat
deriving DecidableEq

/-- One listed artifact as `list_s3_cog_objects` returns it: key, public URL,
size, and the covariate name inferred from the filename. -/
structure CogObj where
  key : List Char
  url : List Char
  size : Nat
  covariate : List Char
deriving DecidableEq

/-- Python `key.rsplit("/", 1)[-1]`: the part of the key after the last slash. -/
def baseName (key : List Char) : List Char :=
  (key.reverse.takeWhile (fun c => !(c == '/'))).reverse

/-- Python `filename.removesuffix(".tif")`. -/
def removeSuffixTif (l : List Char) : List Char :=
  if tif.isSuffixOf l then l.take (l.length - 4) else l

/-- The URL `https://{bucket}.s3.amazonaws.com/{key}`. -/
def s3Url (bucket key : List Char) : List Char :=
  chars "https://" ++ bucket ++ chars ".s3.amazonaws.com/" ++ key

/-- Function `cog_merge.list_s3_cog_objects`: every `.tif` object under the normalised
stem, with `covariate` inferred as the filename without its extension
(lines 199–211). -/
def list_s3_cog_objects (bucket pfxN : List Char) (objs : List S3Obj) : List CogObj :=
  ((objs.filter (fun o => (normPfx pfxN).isPrefixOf o.key)).filter
      (fun o => tif.isSuffixOf o.key)).map
    (fun o => ⟨o.key, s3Url bucket o.key, o.size, removeSuffixTif (baseName o.key)⟩)

/-- The §4.1 attribution rule applied to the single-file case — this is what
the spec claims the orphan-artifact scan uses to attribute an artifact.
Modelled from the spec's words for comparison with the code's
`removesuffix`-based rule. -/
def specArtifactAttribution (known : List (List Char)) (key : List Char) :
    Option (List Char) :=
  attributeTile known (baseName key)

/-- The statuses `{pending_merge, merging, merged}` both scans exclude. -/
def skipStatus (s : Status) : Bool :=
  s == .pending_merge || s == .merging || s == .merged

/-- The scanner's update of an existing `exported` row
(`tasks.auto_merge_unmerged` lines 324–326). -/
def toPM (q : Record) : Record := { q with status := .pending_merge, output_set := true }

/-- Keep the row with the later `started_at` (the first one on ties). -/
def laterOf (acc : Option Record) (p : Record) : Option Record :=
  match acc with
  | none => some p
  | some b => if b.started_at < p.started_at then some p else some b

/-- Query `filter(status == "exported").order_by(started_at.desc()).first()`:
the most recent `exported` row for the covariate (first listed on ties). -/
def latestExported (db : List Record) (n : List Char) : Option Record :=
  (db.filter (fun q => q.covariate_name == n && q.status == Status.exported)).foldl
    laterOf none

/-- The `for name in sorted(need_merge)` loop of `tasks.auto_merge_unmerged`
(lines 312–341): advance the most recent `exported` row to `pending_merge`,
or create a fresh `pending_merge` row; collect the ids to dispatch.  Fresh
rows get ids `fid`, `fid + 1`, … (UUIDs in the source). -/
def mkPending (n : List Char) (now fid : Nat) : Record :=
  { id := fid, covariate_name := n, status := .pending_merge,
    started_at := now, output_set := true }

/-- The loop body over `sorted(need_merge)` (see `mkPending`). -/
def processNeedMerge (db : List Record) (names : List (List Char)) (now fid : Nat) :
    List Record × List Nat :=
  match names with
  | [] => (db, [])
  | n :: rest =>
    match latestExported db n with
    | some q =>
      ((processNeedMerge (updateRec db q.id toPM) rest now fid).1,
       q.id :: (processNeedMerge (updateRec db q.id toPM) rest now fid).2)
    | none =>
      ((processNeedMerge (db ++ [mkPending n now fid]) rest now (fid + 1)).1,
       fid :: (processNeedMerge (db ++ [mkPending n now fid]) rest now (fid + 1)).2)

/-- Result of one unmerged-tile reconciliation run: the table afterwards and
the ids whose merges were dispatched. -/
structure ScanOut where
  db : List Record
  dispatched : List Nat
deriving DecidableEq

/-- Lexicographic (code-point) string order, Python's `sorted` on `str`. -/
def lexLe : List Char → List Char → Bool
  | [], _ => true
  | _ :: _, [] => false
  | a :: as, b :: bs => if a < b then true else if b < a then false else lexLe as bs

/-- Python's `sorted` on a list of strings. -/
def sortLex (l : List (List Char)) : List (List Char) := sortB lexLe l

/-- Set `with_tiles`: the known covariates whose GCS tile count is positive
(`tasks.auto_merge_unmerged` line 278; dict keys are unique, hence `dedup`). -/
def withTilesOf (known gcsObjs : List (List Char)) (gcsPfx : List Char) :
    List (List Char) :=
  known.dedup.filter (fun n => 0 < list_all_gcs_tiles known gcsObjs gcsPfx n)

/-- Set `already_handled`: the covariate has a row in
`{pending_merge, merging, merged}`, or a COG already sits on S3
(`tasks.auto_merge_unmerged` lines 286–303). -/
def alreadyHandled (s3Objs : List S3Obj) (s3Pfx bucket : List Char)
    (db : List Record) (n : List Char) : Bool :=
  db.any (fun q => q.covariate_name == n && skipStatus q.status) ||
  (list_s3_cog_objects bucket s3Pfx s3Objs).any (fun o => o.covariate == n)

/-- List `sorted(need_merge)`: the covariates with tiles that nothing handled yet. -/
def needMergeOf (known gcsObjs : List (List Char)) (gcsPfx : List Char)
    (s3Objs : List S3Obj) (s3Pfx bucket : List Char) (db : List Record) :
    List (List Char) :=
  sortLex ((withTilesOf known gcsObjs gcsPfx).filter
    (fun n => !(alreadyHandled s3Objs s3Pfx bucket db n)))

/-- Task `tasks.auto_merge_unmerged`: count tiles per covariate on GCS, drop
covariates with a row in `{pending_merge, merging, merged}` or a COG already
on S3, and advance/create-and-dispatch the rest.  Inputs are the known
covariate names, the GCS objects and stem, the S3 objects, stem and bucket,
the table, the clock, and the fresh-id counter. -/
def auto_merge_unmerged (known gcsObjs : List (List Char)) (gcsPfx : List Char)
    (s3Objs : List S3Obj) (s3Pfx bucket : List Char) (db : List Record)
    (now fid : Nat) : ScanOut :=
  if (withTilesOf known gcsObjs gcsPfx).isEmpty then ⟨db, []⟩
  else
    ⟨(processNeedMerge db (needMergeOf known gcsObjs gcsPfx s3Objs s3Pfx bucket db)
        now fid).1,
     (processNeedMerge db (needMergeOf known gcsObjs gcsPfx s3Objs s3Pfx bucket db)
        now fid).2⟩

/-- The covariate names of rows in `{merged, merging, pending_merge}` — the
`existing` set `services.discover_existing_cogs` starts from (lines 953–959). -/
def existingSkipNames (db : List Record) : List (List Char) :=
  (db.filter (fun q => skipStatus q.status)).map (fun q => q.covariate_name)

/-- The import loop of `services.discover_existing_cogs` (lines 961–978):
for each artifact whose covariate is not yet tracked, insert a synthetic
`merged` row carrying the artifact's URL and size, and remember the name so
the same batch does not import it twice. -/
def mkDiscovered (o : CogObj) (now fid : Nat) : Record :=
  { id := fid, covariate_name := o.covariate, status := .merged,
    merged_url := some o.url, size_bytes := some o.size,
    completed_at := some now, started_at := now, output_set := true }

/-- The import loop itself (see `mkDiscovered`). -/
def discoverLoop (cogs : List CogObj) (existing : List (List Char))
    (db : List Record) (now fid : Nat) : List Record × List (List Char) :=
  match cogs with
  | [] => (db, [])
  | o :: rest =>
    if existing.contains o.covariate then discoverLoop rest existing db now fid
    else
      let out := discoverLoop rest (o.covariate :: existing)
        (db ++ [mkDiscovered o now fid]) now (fid + 1)
      (out.1, o.covariate :: out.2)

/-- Function `services.discover_existing_cogs`: the orphan-artifact scan. -/
def discover_existing_cogs (bucket pfxN : List Char) (s3Objs : List S3Obj)
    (db : List Record) (now fid : Nat) : List Record × List (List Char) :=
  let cogs := list_s3_cog_objects bucket pfxN s3Objs
  if cogs.isEmpty then (db, [])
  else discoverLoop cogs (existingSkipNames db) db now fid

/-- Externally visible actions of the reset path, in program order. -/
inductive Ev
  | deleteArtifact (n : List Char)
  | deleteTiles (n : List Char)
  | deleteRecord (i : Nat)
  | submitJob (n : List Char)
  | createRecord (n : List Char) (s : Status)
deriving DecidableEq

/-- The per-covariate loop of `services.start_gee_export` (lines 493–509):
submit the GEE export task, then add a row with `status="exporting"` and the
task id.  `taskIds` gives the remote task id per covariate. -/
def mkExporting (n : List Char) (taskIds : List Char → List Char)
    (fid now : Nat) : Record :=
  { id := fid, covariate_name := n, gee_task_id := some (taskIds n),
    status := .exporting, started_at := now }

/-- The loop itself (see `mkExporting`). -/
def start_gee_export_loop (names : List (List Char)) (taskIds : List Char → List Char)
    (db : List Record) (fid now : Nat) : List Record × List Nat × List Ev :=
  match names with
  | [] => (db, [], [])
  | n :: rest =>
    let out := start_gee_export_loop rest taskIds
      (db ++ [mkExporting n taskIds fid now]) (fid + 1) now
    (out.1, fid :: out.2.1,
     Ev.submitJob n :: Ev.createRecord n .exporting :: out.2.2)

/-- Function `services.force_reexport`: best-effort delete of the S3 COG and the GCS
tiles, delete every row for the covariate, then start a fresh GEE export. -/
def force_reexport (cov : List Char) (taskIds : List Char → List Char)
    (db : List Record) (fid now : Nat) : List Record × List Nat × List Ev :=
  let old := db.filter (fun q => q.covariate_name == cov)
  let db₁ := db.filter (fun q => !(q.covariate_name == cov))
  let out := start_gee_export_loop [cov] taskIds db₁ fid now
  (out.1, out.2.1,
   [Ev.deleteArtifact cov, Ev.deleteTiles cov] ++
     old.map (fun q => Ev.deleteRecord q.id) ++ out.2.2)

/-- Python `f"{prefix}/{covariate_name}".strip("/")` — the listing stem of
`cog_merge.list_gcs_tiles` (line 38) and `services.list_export_tiles`. -/
def objPfx (pfxN covName : List Char) : List Char :=
  stripSlash (pfxN ++ ['/'] ++ covName)

/-- The URL `https://storage.googleapis.com/{bucket}/{name}`. -/
def gcsUrl (bucket name : List Char) : List Char :=
  (chars "https://storage.googleapis.com/" ++ bucket ++ ['/']) ++ name

/-- Function `cog_merge.list_gcs_tiles` (and `services.list_export_tiles`, which runs
the same query without pagination): the sorted public URLs of every `.tif`
object whose name starts with the stem.  No digit-boundary or longest-first
check is applied here. -/
def list_gcs_tiles (bucket : List Char) (objs : List (List Char))
    (pfxN covName : List Char) : List (List Char) :=
  sortLex (((objs.filter (fun n => (objPfx pfxN covName).isPrefixOf n)).filter
      (fun n => tif.isSuffixOf n)).map (gcsUrl bucket))

/-- An existing `merged` record for layer `"elev"`, about to be force
re-exported. -/
def c8Rec : Record := { id := 3, covariate_name := chars "elev", status := .merged }

/-- The raw S3 object of the C7 witness (spec scenario 4). -/
def c7Obj : S3Obj := ⟨chars "cog/pop_2015.tif", 99⟩

/-- What `list_s3_cog_objects` makes of `c7Obj`. -/
def c7Cog : CogObj :=
  ⟨chars "cog/pop_2015.tif", s3Url (chars "bkt") (chars "cog/pop_2015.tif"), 99,
   chars "pop_2015"⟩

/-! ## Lemmas and the claim theorems -/

theorem mem_insB {α : Type} {le : α → α → Bool} {x a : α} :
    ∀ {l : List α}, a ∈ insB le x l ↔ a = x ∨ a ∈ l := by
  intro l
  induction l with
  | nil => simp [insB]
  | cons y ys ih =>
    by_cases h : le x y = true
    · simp [insB, h]
    · simp only [insB, h, if_neg, Bool.not_eq_true] at *
      simp [List.mem_cons, ih]
      tauto

theorem mem_sortB {α : Type} {le : α → α → Bool} {a : α} :
    ∀ {l : List α}, a ∈ sortB le l ↔ a ∈ l := by
  intro l
  induction l with
  | nil => simp [sortB]
  | cons x xs ih => simp [sortB, mem_insB, ih]

theorem pairwise_insB {α : Type} {le : α → α → Bool}
    (htot : ∀ a b, le a b = true ∨ le b a = true)
    (htrans : ∀ a b c, le a b = true → le b c = true → le a c = true)
    {x : α} {l : List α} (h : l.Pairwise (fun a b => le a b = true)) :
    (insB le x l).Pairwise (fun a b => le a b = true) := by
  induction l with
  | nil => simp [insB]
  | cons y ys ih =>
    rcases List.pairwise_cons.mp h with ⟨hy, hys⟩
    cases hxy : le x y with
    | true =>
      rw [insB, if_pos hxy]
      refine List.pairwise_cons.mpr ⟨?_, h⟩
      intro b hb
      rcases List.mem_cons.mp hb with rfl | hb
      · exact hxy
      · exact htrans x y b hxy (hy b hb)
    | false =>
      rw [insB, if_neg (by simp [hxy])]
      refine List.pairwise_cons.mpr ⟨?_, ih hys⟩
      intro b hb
      rcases mem_insB.mp hb with rfl | hb
      · rcases htot b y with h' | h'
        · rw [h'] at hxy
          simp at hxy
        · exact h'
      · exact hy b hb

theorem pairwise_sortB {α : Type} {le : α → α → Bool}
    (htot : ∀ a b, le a b = true ∨ le b a = true)
    (htrans : ∀ a b c, le a b = true → le b c = true → le a c = true) :
    ∀ (l : List α), (sortB le l).Pairwise (fun a b => le a b = true) := by
  intro l
  induction l with
  | nil => simp [sortB]
  | cons x xs ih => exact pairwise_insB htot htrans ih

theorem lenDescLe_total (a b : List Char) : lenDescLe a b = true ∨ lenDescLe b a = true := by
  simp only [lenDescLe, decide_eq_true_eq]
  omega

theorem lenDescLe_trans (a b c : List Char) :
    lenDescLe a b = true → lenDescLe b c = true → lenDescLe a c = true := by
  simp only [lenDescLe, decide_eq_true_eq]
  omega

/-- The counting loop counts, for each covariate, exactly the filenames whose
first longest-first match is that covariate. -/
theorem countsLoop_eq (sorted : List (List Char)) :
    ∀ (fs : List (List Char)) (counts : List Char → Nat) (cov : List Char),
      countsLoop sorted fs counts cov =
        counts cov +
          (fs.filter (fun f => sorted.find? (fun c => covMatches f c) == some cov)).length := by
  intro fs
  induction fs with
  | nil => intro counts cov; simp [countsLoop]
  | cons f fs ih =>
    intro counts cov
    cases hf : sorted.find? (fun c => covMatches f c) with
    | none =>
      have hstep : countsLoop sorted (f :: fs) counts = countsLoop sorted fs counts := by
        rw [countsLoop, hf]
      rw [hstep, ih, List.filter_cons]
      simp [hf]
    | some c =>
      have hstep : countsLoop sorted (f :: fs) counts =
          countsLoop sorted fs (bumpCount counts c) := by
        rw [countsLoop, hf]
      rw [hstep, ih, List.filter_cons]
      by_cases hc : c = cov
      · subst hc
        simp [hf, bumpCount]
        omega
      · have h1 : ((sorted.find? (fun c => covMatches f c) == some cov) : Bool) = false := by
          simp [hf, hc]
        rw [h1]
        simp only [bumpCount]
        have h2 : (cov == c) = false := by
          simp [Ne.symm hc]
        rw [h2]
        simp

/-- In a longest-first list, the first match is at least as long as any
element that matches. -/
theorem find?_longest {p : List Char → Bool} :
    ∀ {l : List (List Char)}, l.Pairwise (fun a b => b.length ≤ a.length) →
      ∀ b ∈ l, p b = true → ∃ r, l.find? p = some r ∧ b.length ≤ r.length := by
  intro l
  induction l with
  | nil =>
    intro _ b hb
    simp at hb
  | cons x xs ih =>
    intro hp b hb hpb
    rcases List.pairwise_cons.mp hp with ⟨hx, hxs⟩
    cases hpx : p x with
    | true =>
      refine ⟨x, List.find?_cons_of_pos _ hpx, ?_⟩
      rcases List.mem_cons.mp hb with rfl | hb
      · exact le_refl _
      · exact hx b hb
    | false =>
      have hbx : b ∈ xs := by
        rcases List.mem_cons.mp hb with rfl | hb
        · rw [hpb] at hpx
          cases hpx
        · exact hb
      rcases ih hxs b hbx hpb with ⟨r, hr, hlen⟩
      refine ⟨r, ?_, hlen⟩
      rw [List.find?_cons_of_neg _ (by simp [hpx]), hr]

/-- C1.  Tile attribution: `list_all_gcs_tiles` counts, per covariate `cov`,
exactly the `.tif` filenames whose attribution (first matching candidate in
longest-first order, `attributeTile`) is `cov`; a filename attributed to no
candidate contributes to no count, and the candidate scan order is the known
names sorted by length, longest first, containing exactly the known names. -/
theorem c1_tile_attribution (known objs : List (List Char)) (pfxN cov : List Char) :
    list_all_gcs_tiles known objs pfxN cov =
      ((extractFilenames pfxN objs).filter
        (fun f => attributeTile known f == some cov)).length ∧
    (sortNames known).Pairwise (fun a b => b.length ≤ a.length) ∧
    (∀ x, x ∈ sortNames known ↔ x ∈ known) := by
  refine ⟨?_, ?_, fun x => mem_sortB⟩
  · rw [list_all_gcs_tiles, countsLoop_eq]
    simp [attributeTile]
  · exact (pairwise_sortB lenDescLe_total lenDescLe_trans known).imp
      (fun h => by simpa [lenDescLe] using h)

/-- C2.  A tile named `b ++ digits ++ ".tif"` for a known layer `b` is never
attributed to a known layer `a` that is a strict prefix of `b`: the
longest-first scan reaches `b` (or something at least as long) first. -/
theorem c2_no_misattribution (known : List (List Char)) (a b ds : List Char)
    (ha : a ∈ known) (hb : b ∈ known)
    (hab : a.isPrefixOf b = true) (hne : a ≠ b)
    (hds : ds ≠ []) (hdig : ∀ c ∈ ds, c.isDigit = true) :
    attributeTile known (b ++ ds ++ tif) ≠ some a := by
  have hmatch : covMatches (b ++ ds ++ tif) b = true := by
    unfold covMatches
    rw [List.append_assoc]
    have h1 : b.isPrefixOf (b ++ (ds ++ tif)) = true :=
      List.isPrefixOf_iff_prefix.mpr (List.prefix_append _ _)
    rcases List.exists_cons_of_ne_nil hds with ⟨d, ds', rfl⟩
    have h2 : (b ++ (d :: ds' ++ tif)).drop b.length = d :: (ds' ++ tif) :=
      List.drop_left b ((d :: ds') ++ tif)
    rw [h1, h2]
    simp [hdig d (by simp)]
  have hlt : a.length < b.length := by
    have hpre : a <+: b := List.isPrefixOf_iff_prefix.mp hab
    rcases Nat.lt_or_ge a.length b.length with h | h
    · exact h
    · exact absurd (hpre.eq_of_length (Nat.le_antisymm hpre.length_le h)) hne
  have hpw : (sortNames known).Pairwise (fun a b => b.length ≤ a.length) :=
    (pairwise_sortB lenDescLe_total lenDescLe_trans known).imp
      (fun h => by simpa [lenDescLe] using h)
  rcases find?_longest hpw b (mem_sortB.mpr hb) hmatch with ⟨r, hr, hlen⟩
  unfold attributeTile
  rw [hr]
  intro hEq
  have : r = a := by injection hEq
  subst this
  omega

/-- Witness for C2 at a concrete input: with known names `"fc"` and
`"fc_2000"`, the tile `fc_20000001.tif` is not attributed to `"fc"`. -/
theorem c2_no_misattribution_witness :
    attributeTile [chars "fc", chars "fc_2000"]
        (chars "fc_2000" ++ chars "0001" ++ tif) ≠ some (chars "fc") :=
  c2_no_misattribution [chars "fc", chars "fc_2000"] (chars "fc") (chars "fc_2000")
    (chars "0001") (by decide) (by decide) (by decide) (by decide) (by decide)
    (by decide)

/-- A primary-key lookup after a primary-key update sees the updated row,
for any update that leaves `id` unchanged. -/
theorem findRec_updateRec (db : List Record) (i : Nat) (f : Record → Record)
    (hf : ∀ q, (f q).id = q.id) :
    findRec (updateRec db i f) i = (findRec db i).map f := by
  induction db with
  | nil => rfl
  | cons q qs ih =>
    have hfq : ((f q).id == i) = (q.id == i) := by rw [hf]
    show List.find? (fun x => x.id == i)
        ((if (q.id == i) = true then f q else q) :: updateRec qs i f) =
      Option.map f (List.find? (fun x => x.id == i) (q :: qs))
    by_cases hq : (q.id == i) = true
    · rw [if_pos hq, List.find?_cons, List.find?_cons]
      simp only [hfq, hq]
      rfl
    · rw [if_neg hq, List.find?_cons, List.find?_cons]
      simp only [Bool.not_eq_true] at hq
      simp only [hq]
      exact ih

/-- C4.  When the poller sees phase `SUCCEEDED` for a record in an active
export state, the record ends the poll step in `pending_merge` (never durably
in `exported`), with the listed tile URLs cached in its metadata,
`completed_at` set, and a merge dispatched for it in the same cycle. -/
theorem c4_poll_success_dispatches_merge (r : Record) (err : Option (List Char))
    (tiles : List (List Char)) (now : Nat)
    (htask : r.gee_task_id ≠ none)
    (h : r.status = .pending_export ∨ r.status = .exporting) :
    (pollStep r .SUCCEEDED err tiles now).1.status = .pending_merge ∧
    (pollStep r .SUCCEEDED err tiles now).1.status ≠ .exported ∧
    (pollStep r .SUCCEEDED err tiles now).1.tile_urls = some tiles ∧
    (pollStep r .SUCCEEDED err tiles now).1.completed_at = some now ∧
    (pollStep r .SUCCEEDED err tiles now).2 = true := by
  obtain ⟨t, ht⟩ := Option.ne_none_iff_exists'.mp htask
  rcases h with h | h <;> cases err <;> simp [pollStep, ht, stateMap, h]

/-- Witness for C4: scenario 1 of the spec with layer `"elev"` and 3 tiles. -/
theorem c4_poll_success_dispatches_merge_witness :
    (pollStep c4Rec .SUCCEEDED none [chars "u1", chars "u2", chars "u3"] 7).1.status =
        .pending_merge ∧
    (pollStep c4Rec .SUCCEEDED none [chars "u1", chars "u2", chars "u3"] 7).1.status ≠
        .exported ∧
    (pollStep c4Rec .SUCCEEDED none [chars "u1", chars "u2", chars "u3"] 7).1.tile_urls =
        some [chars "u1", chars "u2", chars "u3"] ∧
    (pollStep c4Rec .SUCCEEDED none [chars "u1", chars "u2", chars "u3"] 7).1.completed_at =
        some 7 ∧
    (pollStep c4Rec .SUCCEEDED none [chars "u1", chars "u2", chars "u3"] 7).2 = true :=
  c4_poll_success_dispatches_merge c4Rec none [chars "u1", chars "u2", chars "u3"] 7
    (by decide) (Or.inr (by decide))

/-- C5.  Any exception during a merge attempt leaves the record `failed` (not
`merging`), with the error message truncated to 2000 characters and
`completed_at` set, and the task returns a failure value instead of raising. -/
theorem c5_merge_exception_sets_failed (db : List Record) (i : Nat)
    (msg : List Char) (now : Nat) (r : Record) (h : findRec db i = some r) :
    ∃ r', findRec (run_cog_merge db i (.exc msg) now).1 i = some r' ∧
      r'.status = .failed ∧ r'.status ≠ .merging ∧
      r'.error_message = some (msg.take 2000) ∧
      (msg.take 2000).length ≤ 2000 ∧
      r'.completed_at = some now ∧
      (run_cog_merge db i (.exc msg) now).2 = .failedR (msg.take 500) := by
  have hclaim : claimRecord db i = some (updateRec db i setMerging) := by
    unfold claimRecord
    rw [h]
  have h1 : findRec (updateRec db i setMerging) i = some (setMerging r) := by
    rw [findRec_updateRec db i setMerging (fun q => rfl), h]
    rfl
  have hrun : run_cog_merge db i (.exc msg) now =
      (updateRec (updateRec db i setMerging) i (setMergeFailed msg now),
       .failedR (msg.take 500)) := by
    unfold run_cog_merge
    rw [hclaim]
  have h2 : findRec (run_cog_merge db i (.exc msg) now).1 i =
      some (setMergeFailed msg now (setMerging r)) := by
    rw [hrun]
    show findRec (updateRec _ i _) i = _
    rw [findRec_updateRec _ i (setMergeFailed msg now) (fun q => rfl), h1]
    rfl
  refine ⟨setMergeFailed msg now (setMerging r), h2, rfl, by simp [setMergeFailed],
          rfl, ?_, rfl, by rw [hrun]⟩
  rw [List.length_take]
  exact inf_le_left

/-- Witness for C5: the merge tool fails with message `"boom"`. -/
theorem c5_merge_exception_sets_failed_witness :
    ∃ r', findRec (run_cog_merge [c5Rec] 1 (.exc (chars "boom")) 4).1 1 = some r' ∧
      r'.status = .failed ∧ r'.status ≠ .merging ∧
      r'.error_message = some ((chars "boom").take 2000) ∧
      ((chars "boom").take 2000).length ≤ 2000 ∧
      r'.completed_at = some 4 ∧
      (run_cog_merge [c5Rec] 1 (.exc (chars "boom")) 4).2 =
        .failedR ((chars "boom").take 500) :=
  c5_merge_exception_sets_failed [c5Rec] 1 (chars "boom") 4 c5Rec (by decide)

/-- C10.  The merge worker checks only that the row exists: whatever the
record's current status, it is claimed to `merging` and the merge runs to
completion (here: the successful outcome ends in `merged` with the artifact
fields set). -/
theorem c10_worker_reclaims_any_status (db : List Record) (i : Nat) (m : MergeOk)
    (now : Nat) (r : Record) (h : findRec db i = some r) :
    (∃ db₁, claimRecord db i = some db₁ ∧
      ∃ r₁, findRec db₁ i = some r₁ ∧ r₁.status = .merging) ∧
    (∃ r₂, findRec (run_cog_merge db i (.ok m) now).1 i = some r₂ ∧
      r₂.status = .merged ∧ r₂.merged_url = some m.url ∧
      r₂.size_bytes = some m.size_bytes ∧ r₂.n_tiles = some m.n_tiles ∧
      r₂.completed_at = some now) := by
  have hclaim : claimRecord db i = some (updateRec db i setMerging) := by
    unfold claimRecord
    rw [h]
  have h1 : findRec (updateRec db i setMerging) i = some (setMerging r) := by
    rw [findRec_updateRec db i setMerging (fun q => rfl), h]
    rfl
  refine ⟨⟨_, hclaim, _, h1, rfl⟩, ?_⟩
  have hrun : (run_cog_merge db i (.ok m) now).1 =
      updateRec (updateRec db i setMerging) i (setMergeOk m now) := by
    unfold run_cog_merge
    rw [hclaim]
  refine ⟨setMergeOk m now (setMerging r), ?_, rfl, rfl, rfl, rfl, rfl⟩
  rw [hrun, findRec_updateRec _ i (setMergeOk m now) (fun q => rfl), h1]
  rfl

/-- Witness for C10: invoking the worker on an already-`merged` record
re-claims and re-merges it. -/
theorem c10_worker_reclaims_any_status_witness :
    (∃ db₁, claimRecord [c10Rec] 9 = some db₁ ∧
      ∃ r₁, findRec db₁ 9 = some r₁ ∧ r₁.status = .merging) ∧
    (∃ r₂, findRec (run_cog_merge [c10Rec] 9
        (.ok ⟨chars "new-url", 42, 3⟩) 11).1 9 = some r₂ ∧
      r₂.status = .merged ∧ r₂.merged_url = some (chars "new-url") ∧
      r₂.size_bytes = some 42 ∧ r₂.n_tiles = some 3 ∧
      r₂.completed_at = some 11) :=
  c10_worker_reclaims_any_status [c10Rec] 9 ⟨chars "new-url", 42, 3⟩ 11 c10Rec (by decide)

/-- C3 counterexample: the poller's phase table maps `PENDING` to
`pending_export`, so a record in `exporting` whose external job reports
`PENDING` is moved backwards — not a forward move, and not a reset action. -/
theorem c3_poller_moves_backwards_cex :
    c3Rec.status = .exporting ∧
    (pollStep c3Rec .PENDING none [] 5).1.status = .pending_export ∧
    ¬ forwardMove c3Rec.status (pollStep c3Rec .PENDING none [] 5).1.status := by
  decide

theorem lexLe_total (a : List Char) : ∀ (b : List Char),
    lexLe a b = true ∨ lexLe b a = true := by
  induction a with
  | nil => intro b; left; rfl
  | cons x xs ih =>
    intro b
    cases b with
    | nil => right; rfl
    | cons y ys =>
      rcases lt_trichotomy x y with h | h | h
      · left
        rw [lexLe, if_pos h]
      · subst h
        rcases ih ys with h' | h'
        · left
          rw [lexLe, if_neg (lt_irrefl x), if_neg (lt_irrefl x)]
          exact h'
        · right
          rw [lexLe, if_neg (lt_irrefl x), if_neg (lt_irrefl x)]
          exact h'
      · right
        rw [lexLe, if_pos h]

theorem lexLe_trans (a : List Char) : ∀ (b c : List Char),
    lexLe a b = true → lexLe b c = true → lexLe a c = true := by
  induction a with
  | nil => intro b c _ _; rfl
  | cons x xs ih =>
    intro b c h1 h2
    cases b with
    | nil => cases h1
    | cons y ys =>
      cases c with
      | nil => cases h2
      | cons z zs =>
        rcases lt_trichotomy x y with hxy | hxy | hxy
        · rcases lt_trichotomy y z with hyz | hyz | hyz
          · rw [lexLe, if_pos (lt_trans hxy hyz)]
          · subst hyz
            rw [lexLe, if_pos hxy]
          · rw [lexLe, if_neg (asymm hyz), if_pos hyz] at h2
            cases h2
        · subst hxy
          rcases lt_trichotomy x z with hxz | hxz | hxz
          · rw [lexLe, if_pos hxz]
          · subst hxz
            rw [lexLe, if_neg (lt_irrefl x), if_neg (lt_irrefl x)] at h1 ⊢
            rw [lexLe, if_neg (lt_irrefl x), if_neg (lt_irrefl x)] at h2
            exact ih ys zs h1 h2
          · rw [lexLe, if_neg (asymm hxz), if_pos hxz] at h2
            cases h2
        · rw [lexLe, if_neg (asymm hxy), if_pos hxy] at h1
          cases h1

/-- C9 counterexample: with known layers `"fc"` and `"fc_2000"`, the listing
for layer `"fc"` includes the tile `cov/fc_20000001.tif`, although the §4.1
attribution rule assigns that filename to `"fc_2000"`, not to `"fc"`.  The
"included iff attributed to this layer" claim is therefore false. -/
theorem c9_single_layer_listing_cex :
    gcsUrl (chars "b") (chars "cov/fc_20000001.tif") ∈
      list_gcs_tiles (chars "b") [chars "cov/fc_20000001.tif"]
        (chars "cov") (chars "fc") ∧
    extractFilenames (chars "cov") [chars "cov/fc_20000001.tif"] =
      [chars "fc_20000001.tif"] ∧
    attributeTile [chars "fc", chars "fc_2000"] (chars "fc_20000001.tif") =
      some (chars "fc_2000") ∧
    ¬ (chars "fc_2000" = chars "fc") := by
  decide

/-- C9 as amended.  The single-layer listing returns, in lexicographically
sorted order, the URL of exactly those `.tif` objects whose name starts with
the stem `strip(prefix + "/" + layerName)` — a pure prefix test, with no
digit-boundary or longest-first check, so it can include tiles that §4.1
attributes to a longer layer name. -/
theorem c9_single_layer_listing_amended (bucket : List Char)
    (objs : List (List Char)) (pfxN covName n : List Char) :
    (gcsUrl bucket n ∈ list_gcs_tiles bucket objs pfxN covName ↔
      n ∈ objs ∧ (objPfx pfxN covName).isPrefixOf n = true ∧
        tif.isSuffixOf n = true) ∧
    (list_gcs_tiles bucket objs pfxN covName).Pairwise
      (fun a b => lexLe a b = true) := by
  constructor
  · unfold list_gcs_tiles sortLex
    rw [mem_sortB]
    constructor
    · intro h
      rcases List.mem_map.mp h with ⟨m, hm, hEq⟩
      have hmn : m = n := List.append_cancel_left hEq
      subst hmn
      rcases List.mem_filter.mp hm with ⟨hm1, hm2⟩
      rcases List.mem_filter.mp hm1 with ⟨hm0, hm3⟩
      exact ⟨hm0, hm3, hm2⟩
    · rintro ⟨h1, h2, h3⟩
      exact List.mem_map_of_mem _
        (List.mem_filter.mpr ⟨List.mem_filter.mpr ⟨h1, h2⟩, h3⟩)
  · exact pairwise_sortB lexLe_total lexLe_trans _

/-- C8 counterexample: after `force_reexport("elev")`, the only record for the
layer has status `exporting` — the fresh record is never created in
`pending_export`, so the claim's "creates a new record in status
PendingExport" is false at this input; moreover the event trace shows the
remote job is submitted before the record is created, not after. -/
theorem c8_force_reexport_cex :
    ((force_reexport (chars "elev") (fun _ => chars "t9") [c8Rec] 7 5).1.filter
        (fun q => q.covariate_name == chars "elev")).map Record.status =
      [Status.exporting] ∧
    ¬ (Status.exporting = Status.pending_export) ∧
    (force_reexport (chars "elev") (fun _ => chars "t9") [c8Rec] 7 5).2.2 =
      [Ev.deleteArtifact (chars "elev"), Ev.deleteTiles (chars "elev"),
       Ev.deleteRecord 3, Ev.submitJob (chars "elev"),
       Ev.createRecord (chars "elev") .exporting] := by
  decide

/-- C8 as amended.  Force re-export deletes (best effort) the destination
artifact and source tiles, deletes every record of the layer, submits the new
remote export job, and only then creates the fresh record — directly in
status `Exporting` with the remote task id, not in `PendingExport`.  Records
of other layers are untouched. -/
theorem c8_force_reexport_amended (cov : List Char)
    (taskIds : List Char → List Char) (db : List Record) (fid now : Nat) :
    (∀ q ∈ (force_reexport cov taskIds db fid now).1,
      q.covariate_name = cov →
        q.status = .exporting ∧ q.id = fid ∧ q.started_at = now ∧
        q.gee_task_id = some (taskIds cov)) ∧
    (∃ q ∈ (force_reexport cov taskIds db fid now).1, q.covariate_name = cov) ∧
    (∀ q ∈ db, q.covariate_name ≠ cov →
      q ∈ (force_reexport cov taskIds db fid now).1) ∧
    (∃ pre, (force_reexport cov taskIds db fid now).2.2 =
      pre ++ [Ev.submitJob cov, Ev.createRecord cov .exporting]) := by
  refine ⟨?_, ?_, ?_, ?_⟩
  · intro q hq hname
    have hq' : q ∈ db.filter (fun x => !(x.covariate_name == cov)) ++
        [mkExporting cov taskIds fid now] := hq
    rcases List.mem_append.mp hq' with h | h
    · rcases List.mem_filter.mp h with ⟨_, hfalse⟩
      rw [hname] at hfalse
      simp at hfalse
    · rcases List.mem_singleton.mp h with rfl
      exact ⟨rfl, rfl, rfl, rfl⟩
  · refine ⟨mkExporting cov taskIds fid now, ?_, rfl⟩
    exact List.mem_append_right _ (List.mem_singleton.mpr rfl)
  · intro q hq hname
    exact List.mem_append_left _
      (List.mem_filter.mpr ⟨hq, by simp [hname]⟩)
  · exact ⟨[Ev.deleteArtifact cov, Ev.deleteTiles cov] ++
      (db.filter (fun q => q.covariate_name == cov)).map
        (fun q => Ev.deleteRecord q.id), by
        simp [force_reexport, start_gee_export_loop]⟩

/-- The import loop never removes rows. -/
theorem discoverLoop_mem_mono :
    ∀ (cogs : List CogObj) (existing : List (List Char)) (db : List Record)
      (now fid : Nat) (q : Record),
      q ∈ db → q ∈ (discoverLoop cogs existing db now fid).1 := by
  intro cogs
  induction cogs with
  | nil =>
    intro existing db now fid q hq
    exact hq
  | cons o rest ih =>
    intro existing db now fid q hq
    rw [discoverLoop]
    by_cases h : existing.contains o.covariate = true
    · rw [if_pos h]
      exact ih existing db now fid q hq
    · rw [if_neg h]
      exact ih (o.covariate :: existing) (db ++ [mkDiscovered o now fid]) now
        (fid + 1) q (List.mem_append_left _ hq)

/-- Any artifact whose covariate is not in the `existing` set leads to a
synthetic `merged` row named after it, carrying the URL and size of some
listed artifact with that covariate name. -/
theorem discoverLoop_creates :
    ∀ (cogs : List CogObj) (existing : List (List Char)) (db : List Record)
      (now fid : Nat) (o : CogObj),
      o ∈ cogs → existing.contains o.covariate = false →
      ∃ q ∈ (discoverLoop cogs existing db now fid).1,
        q.covariate_name = o.covariate ∧ q.status = .merged ∧
        ∃ o' ∈ cogs, o'.covariate = o.covariate ∧
          q.merged_url = some o'.url ∧ q.size_bytes = some o'.size := by
  intro cogs
  induction cogs with
  | nil =>
    intro existing db now fid o ho
    simp at ho
  | cons o₀ rest ih =>
    intro existing db now fid o ho hex
    rw [discoverLoop]
    by_cases hc : existing.contains o₀.covariate = true
    · rw [if_pos hc]
      have ho' : o ∈ rest := by
        rcases List.mem_cons.mp ho with rfl | h
        · rw [hex] at hc
          cases hc
        · exact h
      rcases ih existing db now fid o ho' hex with ⟨q, hq, h1, h2, o', ho'', h3, h4, h5⟩
      exact ⟨q, hq, h1, h2, o', List.mem_cons_of_mem _ ho'', h3, h4, h5⟩
    · rw [if_neg hc]
      by_cases hco : o.covariate = o₀.covariate
      · refine ⟨mkDiscovered o₀ now fid,
          discoverLoop_mem_mono rest (o₀.covariate :: existing)
            (db ++ [mkDiscovered o₀ now fid]) now (fid + 1) _
            (List.mem_append_right _ (List.mem_singleton.mpr rfl)),
          hco.symm, rfl, o₀, List.mem_cons_self _ _, hco.symm, rfl, rfl⟩
      · have ho' : o ∈ rest := by
          rcases List.mem_cons.mp ho with rfl | h
          · exact absurd rfl hco
          · exact h
        have hex' : (o₀.covariate :: existing).contains o.covariate = false := by
          simp only [List.contains_cons, Bool.or_eq_false_iff]
          exact ⟨by simp [hco], hex⟩
        rcases ih (o₀.covariate :: existing) (db ++ [mkDiscovered o₀ now fid]) now
          (fid + 1) o ho' hex' with ⟨q, hq, h1, h2, o', ho'', h3, h4, h5⟩
        exact ⟨q, hq, h1, h2, o', List.mem_cons_of_mem _ ho'', h3, h4, h5⟩

/-- C7 counterexample: the destination artifact `cog/elev2.tif` is attributed
by the code to the covariate `"elev2"` (filename minus extension), while the
§4.1 rule over the known set `["elev"]` attributes the same filename to
`"elev"` (digit boundary).  The scan therefore does not use the §4.1 rule. -/
theorem c7_orphan_attribution_cex :
    (list_s3_cog_objects (chars "bkt") (chars "cog")
        [⟨chars "cog/elev2.tif", 5⟩]).map CogObj.covariate = [chars "elev2"] ∧
    specArtifactAttribution [chars "elev"] (chars "cog/elev2.tif") =
      some (chars "elev") ∧
    ¬ (chars "elev2" = chars "elev") := by
  decide

/-- C7 as amended.  The orphan-artifact scan attributes each destination
artifact to the covariate name obtained by stripping `".tif"` from the
filename (no §4.1 known-name matching), and for every such covariate with an
artifact but no record in `{merged, merging, pending_merge}` it synthesizes a
`merged` record carrying the URL and size of an artifact of that covariate. -/
theorem c7_orphan_scan_amended (bucket pfxN : List Char) (s3Objs : List S3Obj)
    (db : List Record) (now fid : Nat) (o : CogObj)
    (ho : o ∈ list_s3_cog_objects bucket pfxN s3Objs)
    (hnone : ∀ q ∈ db, q.covariate_name = o.covariate → skipStatus q.status = false) :
    (o.covariate = removeSuffixTif (baseName o.key)) ∧
    ∃ q ∈ (discover_existing_cogs bucket pfxN s3Objs db now fid).1,
      q.covariate_name = o.covariate ∧ q.status = .merged ∧
      ∃ o' ∈ list_s3_cog_objects bucket pfxN s3Objs,
        o'.covariate = o.covariate ∧
        q.merged_url = some o'.url ∧ q.size_bytes = some o'.size := by
  constructor
  · rcases List.mem_map.mp ho with ⟨s, _, rfl⟩
    rfl
  · have hne : (list_s3_cog_objects bucket pfxN s3Objs).isEmpty = false := by
      cases hl : list_s3_cog_objects bucket pfxN s3Objs with
      | nil =>
        rw [hl] at ho
        cases ho
      | cons a as => rfl
    have hex : (existingSkipNames db).contains o.covariate = false := by
      cases hcon : (existingSkipNames db).contains o.covariate with
      | false => rfl
      | true =>
        exfalso
        have hmem : o.covariate ∈ existingSkipNames db := by
          simpa using hcon
        rcases List.mem_map.mp hmem with ⟨q, hq, hname⟩
        rcases List.mem_filter.mp hq with ⟨hqdb, hskip⟩
        rw [hnone q hqdb hname] at hskip
        cases hskip
    have hgoal := discoverLoop_creates (list_s3_cog_objects bucket pfxN s3Objs)
      (existingSkipNames db) db now fid o ho hex
    unfold discover_existing_cogs
    rw [if_neg (by simp [hne])]
    exact hgoal

/-- Witness for C7 (amended): an untracked `pop_2015.tif` artifact on an
empty table gives rise to a synthetic `merged` record with its URL and size. -/
theorem c7_orphan_scan_amended_witness :
    (c7Cog.covariate = removeSuffixTif (baseName c7Cog.key)) ∧
    ∃ q ∈ (discover_existing_cogs (chars "bkt") (chars "cog") [c7Obj] [] 6 0).1,
      q.covariate_name = c7Cog.covariate ∧ q.status = .merged ∧
      ∃ o' ∈ list_s3_cog_objects (chars "bkt") (chars "cog") [c7Obj],
        o'.covariate = c7Cog.covariate ∧
        q.merged_url = some o'.url ∧ q.size_bytes = some o'.size :=
  c7_orphan_scan_amended (chars "bkt") (chars "cog") [c7Obj] [] 6 0 c7Cog
    (by decide) (by decide)

/-- What `latestExported` returns really is an `exported` row of the table
with the right covariate name. -/
theorem latestExported_mem (db : List Record) (n : List Char) (q : Record)
    (h : latestExported db n = some q) :
    q ∈ db ∧ q.covariate_name = n ∧ q.status = .exported := by
  have main : ∀ (l : List Record) (acc : Option Record) (p : Record),
      l.foldl laterOf acc = some p →
      p ∈ l ∨ acc = some p := by
    intro l
    induction l with
    | nil =>
      intro acc p h
      right
      exact h
    | cons x xs ih =>
      intro acc p h
      rcases ih _ p h with h' | h'
      · left
        exact List.mem_cons_of_mem _ h'
      · cases acc with
        | none =>
          rw [laterOf] at h'
          cases h'
          left
          exact List.mem_cons_self _ _
        | some b =>
          rw [laterOf] at h'
          by_cases hlt : b.started_at < x.started_at
          · rw [if_pos hlt] at h'
            cases h'
            left
            exact List.mem_cons_self _ _
          · rw [if_neg hlt] at h'
            right
            exact h'
  rcases main _ _ _ h with h' | h'
  · rcases List.mem_filter.mp h' with ⟨hdb, hcond⟩
    rw [Bool.and_eq_true] at hcond
    exact ⟨hdb, eq_of_beq hcond.1, eq_of_beq hcond.2⟩
  · cases h'

/-- The scanner's loop never loses a `{pending_merge, merging, merged}` row
for a covariate: it only flips `exported` rows to `pending_merge` and appends
fresh `pending_merge` rows. -/
theorem processNeedMerge_keeps_skip :
    ∀ (names : List (List Char)) (db : List Record) (now fid : Nat) (n : List Char),
      (∃ q ∈ db, q.covariate_name = n ∧ skipStatus q.status = true) →
      ∃ q ∈ (processNeedMerge db names now fid).1,
        q.covariate_name = n ∧ skipStatus q.status = true := by
  intro names
  induction names with
  | nil =>
    intro db now fid n h
    exact h
  | cons m rest ih =>
    intro db now fid n h
    rw [processNeedMerge]
    cases hle : latestExported db m with
    | some q =>
      apply ih
      rcases h with ⟨p, hp, hpn, hps⟩
      have hgp : (if (p.id == q.id) = true then toPM p else p) ∈ updateRec db q.id toPM :=
        List.mem_map_of_mem _ hp
      by_cases hid : (p.id == q.id) = true
      · rw [if_pos hid] at hgp
        exact ⟨toPM p, hgp, hpn, rfl⟩
      · rw [if_neg hid] at hgp
        exact ⟨p, hgp, hpn, hps⟩
    | none =>
      apply ih
      rcases h with ⟨p, hp, hpn, hps⟩
      exact ⟨p, List.mem_append_left _ hp, hpn, hps⟩

/-- Every covariate the scanner's loop processes ends with a
`{pending_merge, merging, merged}` row: the advanced `exported` row or the
freshly created one. -/
theorem processNeedMerge_handles :
    ∀ (names : List (List Char)) (db : List Record) (now fid : Nat) (n : List Char),
      n ∈ names →
      ∃ q ∈ (processNeedMerge db names now fid).1,
        q.covariate_name = n ∧ skipStatus q.status = true := by
  intro names
  induction names with
  | nil =>
    intro db now fid n h
    cases h
  | cons m rest ih =>
    intro db now fid n hn
    rw [processNeedMerge]
    cases hle : latestExported db m with
    | some q =>
      rcases List.mem_cons.mp hn with rfl | hn'
      · apply processNeedMerge_keeps_skip
        rcases latestExported_mem db n q hle with ⟨hqdb, hqn, _⟩
        have hgp : (if (q.id == q.id) = true then toPM q else q) ∈ updateRec db q.id toPM :=
          List.mem_map_of_mem _ hqdb
        rw [if_pos (by simp)] at hgp
        exact ⟨toPM q, hgp, hqn, rfl⟩
      · exact ih _ now fid n hn'
    | none =>
      rcases List.mem_cons.mp hn with rfl | hn'
      · apply processNeedMerge_keeps_skip
        exact ⟨mkPending n now fid,
          List.mem_append_right _ (List.mem_singleton.mpr rfl), rfl, rfl⟩
      · exact ih _ now (fid + 1) n hn'

/-- When every covariate with tiles is already handled, the scan dispatches
nothing. -/
theorem auto_merge_dispatched_nil (known gcsObjs : List (List Char))
    (gcsPfx : List Char) (s3Objs : List S3Obj) (s3Pfx bucket : List Char)
    (db : List Record) (now fid : Nat)
    (h : ∀ n ∈ withTilesOf known gcsObjs gcsPfx,
      alreadyHandled s3Objs s3Pfx bucket db n = true) :
    (auto_merge_unmerged known gcsObjs gcsPfx s3Objs s3Pfx bucket db now fid).dispatched
      = [] := by
  unfold auto_merge_unmerged
  by_cases hW : (withTilesOf known gcsObjs gcsPfx).isEmpty = true
  · rw [if_pos hW]
  · rw [if_neg hW]
    have hnm : needMergeOf known gcsObjs gcsPfx s3Objs s3Pfx bucket db = [] := by
      unfold needMergeOf
      have hfil : (withTilesOf known gcsObjs gcsPfx).filter
          (fun n => !(alreadyHandled s3Objs s3Pfx bucket db n)) = [] :=
        List.filter_eq_nil_iff.mpr (fun n hn => by simp [h n hn])
      rw [hfil]
      rfl
    rw [hnm]
    rfl

/-- C6.  The unmerged-tile reconciliation is idempotent: with the same GCS
tiles, the same S3 artifacts and no other change to the table, a second run
dispatches zero merges, because every covariate the first run advanced to (or
created in) `pending_merge` is in the exclusion set the second run checks. -/
theorem c6_unmerged_scan_idempotent (known gcsObjs : List (List Char))
    (gcsPfx : List Char) (s3Objs : List S3Obj) (s3Pfx bucket : List Char)
    (db : List Record) (now fid now₂ fid₂ : Nat) :
    (auto_merge_unmerged known gcsObjs gcsPfx s3Objs s3Pfx bucket
      (auto_merge_unmerged known gcsObjs gcsPfx s3Objs s3Pfx bucket db now fid).db
      now₂ fid₂).dispatched = [] := by
  apply auto_merge_dispatched_nil
  intro n hn
  have hWne : (withTilesOf known gcsObjs gcsPfx).isEmpty = false := by
    cases hW : withTilesOf known gcsObjs gcsPfx with
    | nil =>
      rw [hW] at hn
      cases hn
    | cons a as => rfl
  have hrun1 : (auto_merge_unmerged known gcsObjs gcsPfx s3Objs s3Pfx bucket db now fid).db =
      (processNeedMerge db (needMergeOf known gcsObjs gcsPfx s3Objs s3Pfx bucket db)
        now fid).1 := by
    unfold auto_merge_unmerged
    rw [if_neg (by simp [hWne])]
  rw [hrun1]
  unfold alreadyHandled
  rw [Bool.or_eq_true]
  by_cases hA : alreadyHandled s3Objs s3Pfx bucket db n = true
  · have hA' := hA
    unfold alreadyHandled at hA'
    rw [Bool.or_eq_true] at hA'
    rcases hA' with hdb | hs3
    · left
      rcases List.any_eq_true.mp hdb with ⟨q, hq, hcond⟩
      rw [Bool.and_eq_true] at hcond
      rcases hcond with ⟨hname, hskip⟩
      rcases processNeedMerge_keeps_skip _ db now fid n
        ⟨q, hq, eq_of_beq hname, hskip⟩ with ⟨p, hp, hpn, hps⟩
      exact List.any_eq_true.mpr ⟨p, hp, by simp [hpn, hps]⟩
    · right
      exact hs3
  · left
    have hmem : n ∈ needMergeOf known gcsObjs gcsPfx s3Objs s3Pfx bucket db := by
      unfold needMergeOf sortLex
      rw [mem_sortB]
      exact List.mem_filter.mpr ⟨hn, by simp [hA]⟩
    rcases processNeedMerge_handles _ db now fid n hmem with ⟨p, hp, hpn, hps⟩
    exact List.any_eq_true.mpr ⟨p, hp, by simp [hpn, hps]⟩

/-- Primary-key lookup through an update at a possibly different key. -/
theorem findRec_updateRec_general (db : List Record) (i j : Nat) (f : Record → Record)
    (hf : ∀ q, (f q).id = q.id) :
    findRec (updateRec db j f) i =
      (findRec db i).map (fun q => if q.id == j then f q else q) := by
  induction db with
  | nil => rfl
  | cons q qs ih =>
    show List.find? (fun x => x.id == i)
        ((if (q.id == j) = true then f q else q) :: updateRec qs j f) =
      Option.map (fun p => if p.id == j then f p else p)
        (List.find? (fun x => x.id == i) (q :: qs))
    by_cases hq : (q.id == j) = true
    · rw [if_pos hq, List.find?_cons, List.find?_cons]
      have hfq : ((f q).id == i) = (q.id == i) := by rw [hf]
      rw [hfq]
      cases hqi : (q.id == i) with
      | true =>
        show some (f q) = some (if (q.id == j) = true then f q else q)
        rw [if_pos hq]
      | false => exact ih
    · rw [if_neg hq, List.find?_cons, List.find?_cons]
      cases hqi : (q.id == i) with
      | true =>
        show some q = some (if (q.id == j) = true then f q else q)
        rw [if_neg hq]
      | false => exact ih

/-- An id-preserving update leaves the table's id column unchanged. -/
theorem updateRec_map_id (db : List Record) (j : Nat) (f : Record → Record)
    (hf : ∀ q, (f q).id = q.id) :
    (updateRec db j f).map Record.id = db.map Record.id := by
  unfold updateRec
  rw [List.map_map]
  apply List.map_congr_left
  intro q _
  show Record.id (if (q.id == j) = true then f q else q) = q.id
  by_cases hq : (q.id == j) = true
  · rw [if_pos hq]
    exact hf q
  · rw [if_neg hq]

/-- Through the scanner's loop, a row with a given id (unique ids, fresh id
counter above every existing id) is either untouched or was an `exported` row
advanced to `pending_merge`. -/
theorem processNeedMerge_find :
    ∀ (names : List (List Char)) (db : List Record) (now fid i : Nat) (r r' : Record),
      (db.map Record.id).Nodup → (∀ q ∈ db, q.id < fid) →
      findRec db i = some r →
      findRec (processNeedMerge db names now fid).1 i = some r' →
      r' = r ∨ (r.status = .exported ∧ r' = toPM r) := by
  intro names
  induction names with
  | nil =>
    intro db now fid i r r' _ _ h1 h2
    left
    have h2' : findRec db i = some r' := h2
    rw [h1] at h2'
    exact (Option.some.inj h2').symm
  | cons m rest ih =>
    intro db now fid i r r' hnd hbound h1 h2
    rw [processNeedMerge] at h2
    cases hle : latestExported db m with
    | some q =>
      rw [hle] at h2
      have h2' : findRec (processNeedMerge (updateRec db q.id toPM) rest now fid).1 i
          = some r' := h2
      have hup : findRec (updateRec db q.id toPM) i =
          some (if (r.id == q.id) = true then toPM r else r) := by
        rw [findRec_updateRec_general db i q.id toPM (fun p => rfl), h1]
        rfl
      have hnd' : ((updateRec db q.id toPM).map Record.id).Nodup := by
        rw [updateRec_map_id db q.id toPM (fun p => rfl)]
        exact hnd
      have hbound' : ∀ p ∈ updateRec db q.id toPM, p.id < fid := by
        intro p hp
        rcases List.mem_map.mp hp with ⟨p₀, hp₀, rfl⟩
        have : Record.id (if (p₀.id == q.id) = true then toPM p₀ else p₀) = p₀.id := by
          by_cases hc : (p₀.id == q.id) = true
          · rw [if_pos hc]
            rfl
          · rw [if_neg hc]
        rw [this]
        exact hbound p₀ hp₀
      by_cases hid : (r.id == q.id) = true
      · rw [if_pos hid] at hup
        rcases ih _ now fid i (toPM r) r' hnd' hbound' hup h2' with rfl | ⟨habs, _⟩
        · rcases latestExported_mem db m q hle with ⟨hqdb, _, hqexp⟩
          have hrq : r = q := List.inj_on_of_nodup_map hnd
            (List.mem_of_find?_eq_some h1) hqdb (by exact eq_of_beq hid)
          right
          exact ⟨by rw [hrq]; exact hqexp, rfl⟩
        · cases habs
      · rw [if_neg hid] at hup
        exact ih _ now fid i r r' hnd' hbound' hup h2'
    | none =>
      rw [hle] at h2
      have h2' : findRec (processNeedMerge (db ++ [mkPending m now fid]) rest now
          (fid + 1)).1 i = some r' := h2
      have h1' : findRec (db ++ [mkPending m now fid]) i = some r := by
        unfold findRec at h1 ⊢
        rw [List.find?_append, h1]
        rfl
      have hnd' : ((db ++ [mkPending m now fid]).map Record.id).Nodup := by
        rw [List.map_append]
        rw [List.nodup_append]
        refine ⟨hnd, List.nodup_singleton _, ?_⟩
        intro x hx hx'
        rcases List.mem_map.mp hx with ⟨p, hp, rfl⟩
        have : (mkPending m now fid).id = p.id := by
          rcases List.mem_singleton.mp hx' with h
          rw [h]
        have hlt := hbound p hp
        rw [show (mkPending m now fid).id = fid from rfl] at this
        omega
      have hbound' : ∀ q ∈ db ++ [mkPending m now fid], q.id < fid + 1 := by
        intro q hq
        rcases List.mem_append.mp hq with hq | hq
        · exact Nat.lt_succ_of_lt (hbound q hq)
        · rcases List.mem_singleton.mp hq with rfl
          exact Nat.lt_succ_self _
      exact ih _ now (fid + 1) i r r' hnd' hbound' h1' h2'

/-- C3 as amended.  Status mutations by the poller, the merge worker and the
reconciliation scanner move a record's status only forward along
`pending_export → exporting → exported → pending_merge → merging → merged`
(with `failed`/`cancelled` reachable from any state), with one exception: the
poller's phase table maps the external `PENDING` phase to `pending_export`,
which moves an `exporting` record backwards to `pending_export`.  (The merge
worker, stated here for its normal invocation on a `pending_merge` record,
can additionally re-claim a record of any status — claim C10.) -/
theorem c3_status_forward_amended :
    (∀ (r : Record) (gee : GeeState) (err : Option (List Char))
        (tiles : List (List Char)) (now : Nat),
      r.status = .pending_export ∨ r.status = .exporting →
      forwardMove r.status (pollStep r gee err tiles now).1.status ∨
        (r.status = .exporting ∧ gee = .PENDING ∧
          (pollStep r gee err tiles now).1.status = .pending_export)) ∧
    (∀ (db : List Record) (i : Nat) (outcome : MergeOutcome) (now : Nat)
        (r r' : Record),
      findRec db i = some r → r.status = .pending_merge →
      findRec (run_cog_merge db i outcome now).1 i = some r' →
      forwardMove r.status r'.status) ∧
    (∀ (known gcsObjs : List (List Char)) (gcsPfx : List Char)
        (s3Objs : List S3Obj) (s3Pfx bucket : List Char) (db : List Record)
        (now fid i : Nat) (r r' : Record),
      (db.map Record.id).Nodup → (∀ q ∈ db, q.id < fid) →
      findRec db i = some r →
      findRec (auto_merge_unmerged known gcsObjs gcsPfx s3Objs s3Pfx bucket db
        now fid).db i = some r' →
      forwardMove r.status r'.status) := by
  refine ⟨?_, ?_, ?_⟩
  · intro r gee err tiles now h
    cases htask : r.gee_task_id with
    | none =>
      left
      have : (pollStep r gee err tiles now).1 = r := by
        unfold pollStep
        rw [htask]
      rw [this]
      exact Or.inl (Nat.le_refl _)
    | some t =>
      rcases h with h | h <;> cases gee <;> cases err <;>
        simp [pollStep, htask, stateMap, h, forwardMove, statusIdx]
  · intro db i outcome now r r' h1 hpm h2
    have hclaim : claimRecord db i = some (updateRec db i setMerging) := by
      unfold claimRecord
      rw [h1]
    cases outcome with
    | ok m =>
      have hrun : (run_cog_merge db i (.ok m) now).1 =
          updateRec (updateRec db i setMerging) i (setMergeOk m now) := by
        unfold run_cog_merge
        rw [hclaim]
      rw [hrun] at h2
      rw [findRec_updateRec _ i (setMergeOk m now) (fun q => rfl),
          findRec_updateRec db i setMerging (fun q => rfl), h1] at h2
      have : r' = setMergeOk m now (setMerging r) := (Option.some.inj h2).symm
      rw [this, hpm]
      left
      show statusIdx Status.pending_merge ≤ statusIdx Status.merged
      decide
    | exc msg =>
      have hrun : (run_cog_merge db i (.exc msg) now).1 =
          updateRec (updateRec db i setMerging) i (setMergeFailed msg now) := by
        unfold run_cog_merge
        rw [hclaim]
      rw [hrun] at h2
      rw [findRec_updateRec _ i (setMergeFailed msg now) (fun q => rfl),
          findRec_updateRec db i setMerging (fun q => rfl), h1] at h2
      have : r' = setMergeFailed msg now (setMerging r) := (Option.some.inj h2).symm
      rw [this]
      right
      left
      rfl
  · intro known gcsObjs gcsPfx s3Objs s3Pfx bucket db now fid i r r' hnd hbound h1 h2
    unfold auto_merge_unmerged at h2
    by_cases hW : (withTilesOf known gcsObjs gcsPfx).isEmpty = true
    · rw [if_pos hW] at h2
      have h2' : findRec db i = some r' := h2
      rw [h1] at h2'
      rw [(Option.some.inj h2').symm]
      left
      exact Nat.le_refl _
    · rw [if_neg hW] at h2
      have h2' : findRec (processNeedMerge db
          (needMergeOf known gcsObjs gcsPfx s3Objs s3Pfx bucket db) now fid).1 i
          = some r' := h2
      rcases processNeedMerge_find _ db now fid i r r' hnd hbound h1 h2' with rfl | ⟨hexp, rfl⟩
      · left
        exact Nat.le_refl _
      · rw [hexp]
        left
        show statusIdx Status.exported ≤ statusIdx Status.pending_merge
        decide
